import Mathlib

/-!
Shallow embedding of `src/yt_statistics.py` (youtube-statistics).

Python values that may be absent (`None`) are modelled as `Option`;
Python exceptions are modelled with `Except PyErr`; a `try/except E`
block is a `match` that handles exactly the constructor standing for `E`
and propagates the rest.  Machine-level concerns do not arise: the data
is strings, lists, dicts and `datetime` values.
-/

namespace YTStats

/-- Python exception classes that the embedded code can raise:
`TypeError` (e.g. `strptime(None, ...)`, `','.join` over a `None`),
`KeyError` (subscripting a missing dict key), `ValueError`
(`strptime` on a malformed string). -/
inductive PyErr where
  | typeError
  | keyError
  | valueError
  deriving DecidableEq

/-- View of an `Except` value as a sum, used to derive decidable
equality. -/
def exceptToSum {ε α : Type} : Except ε α → Sum ε α
  | Except.error e => Sum.inl e
  | Except.ok a => Sum.inr a

instance {ε α : Type} [DecidableEq ε] [DecidableEq α] : DecidableEq (Except ε α) := fun a b =>
  decidable_of_iff (exceptToSum a = exceptToSum b) (by
    cases a <;> cases b <;> simp [exceptToSum])

/-- Model of `datetime.datetime`: six integer components. -/
structure Datetime where
  year : Nat
  month : Nat
  day : Nat
  hour : Nat
  minute : Nat
  second : Nat
  deriving DecidableEq

/-- Gregorian leap-year rule, as used by `calendar.monthrange`. -/
def isLeapYear (y : Nat) : Bool :=
  (y % 4 == 0 && y % 100 != 0) || y % 400 == 0

/-- Number of days of month `m` of year `y` (`calendar.monthrange(y, m)[1]`). -/
def daysInMonth (y m : Nat) : Nat :=
  if m = 2 then (if isLeapYear y then 29 else 28)
  else if m = 4 ∨ m = 6 ∨ m = 9 ∨ m = 11 then 30
  else 31

/-- Range constraints enforced by the `datetime.datetime` constructor. -/
def validDatetime (t : Datetime) : Bool :=
  1 ≤ t.year && 1 ≤ t.month && t.month ≤ 12 &&
  1 ≤ t.day && t.day ≤ daysInMonth t.year t.month &&
  t.hour ≤ 23 && t.minute ≤ 59 && t.second ≤ 59

/-- Injective encoding of the six components; on values within the
`validDatetime` ranges it realises exactly the lexicographic
component-wise comparison that Python's `datetime` ordering uses
(month ≤ 12 < 13, day ≤ 31 < 32, hour < 24, minute < 60, second < 60). -/
def dtKey (t : Datetime) : Nat :=
  ((((t.year * 13 + t.month) * 32 + t.day) * 24 + t.hour) * 60 + t.minute) * 60 + t.second

/-- Model of `a < b` on `datetime` values. -/
def dtLt (a b : Datetime) : Bool :=
  decide (dtKey a < dtKey b)

/-- Numeric value of a list of decimal digit characters. -/
def digitsVal (cs : List Char) : Nat :=
  cs.foldl (fun a c => a * 10 + (c.toNat - 48)) 0

/-- Model of `datetime.datetime.strptime(s, '%Y-%m-%dT%H:%M:%SZ')`,
restricted to the canonical zero-padded form that the YouTube API emits:
exactly `YYYY-MM-DDTHH:MM:SSZ`, with the component ranges validated the
way the `datetime` constructor validates them.  `none` stands for the
`ValueError` the Python call raises on any other string. -/
def strptimeYT (s : String) : Option Datetime :=
  match s.toList with
  | [y1, y2, y3, y4, c1, m1, m2, c2, d1, d2, c3, h1, h2, c4, n1, n2, c5, s1, s2, c6] =>
    if ([y1, y2, y3, y4, m1, m2, d1, d2, h1, h2, n1, n2, s1, s2].all Char.isDigit)
        && c1 == '-' && c2 == '-' && c3 == 'T' && c4 == ':' && c5 == ':' && c6 == 'Z' then
      let t : Datetime :=
        { year := digitsVal [y1, y2, y3, y4]
          month := digitsVal [m1, m2]
          day := digitsVal [d1, d2]
          hour := digitsVal [h1, h2]
          minute := digitsVal [n1, n2]
          second := digitsVal [s1, s2] }
      if validDatetime t then some t else none
    else none
  | _ => none

/-- Shaped video record (`shape_item`'s output): every field is the
result of a `dict.get`, hence optional. -/
structure VideoRecord where
  publishedAt : Option String
  title : Option String
  channelTitle : Option String
  tags : Option (List String)
  categoryId : Option String
  deriving DecidableEq

/-- Relevant keys of a raw item's `snippet` sub-dict (each read with
`.get`, hence optional). -/
structure Snippet where
  publishedAt : Option String
  title : Option String
  channelTitle : Option String
  tags : Option (List String)
  categoryId : Option String
  deriving DecidableEq

/-- Raw API video item: a dict that may or may not carry a `snippet`
sub-dict. -/
structure RawItem where
  snippet : Option Snippet
  deriving DecidableEq

/-- Model of `shape_item`: `item['snippet']` raises `KeyError` when the
key is missing; each field is then read with `.get` (absent stays
absent). -/
def shape_item (item : RawItem) : Except PyErr VideoRecord :=
  match item.snippet with
  | none => Except.error PyErr.keyError
  | some sn =>
    Except.ok
      { publishedAt := sn.publishedAt
        title := sn.title
        channelTitle := sn.channelTitle
        tags := sn.tags
        categoryId := sn.categoryId }

/-- Model of `is_published_after`.  `strptime` is called on
`video.get('publishedAt')`: on `None` it raises `TypeError`, which the
surrounding `except ValueError` does NOT catch; on a malformed string it
raises `ValueError`, which IS caught (logged) and turned into `False`. -/
def is_published_after (video : VideoRecord) (date : Datetime) : Except PyErr Bool :=
  match video.publishedAt with
  | none => Except.error PyErr.typeError
  | some s =>
    match strptimeYT s with
    | none => Except.ok false
    | some published_at => Except.ok (dtLt date published_at)

/-- Model of `now + dateutil.relativedelta.relativedelta(months=-1)`:
decrement the month (borrowing a year below January) and clamp the day
to the length of the target month; time-of-day components unchanged. -/
def relativedeltaMinusOneMonth (t : Datetime) : Datetime :=
  let y := if t.month = 1 then t.year - 1 else t.year
  let m := if t.month = 1 then 12 else t.month - 1
  { t with year := y, month := m, day := min t.day (daysInMonth y m) }

/-- Model of `last_month()`: `datetime.datetime.now()` is passed in as
the parameter `now`. -/
def last_month (now : Datetime) : Datetime :=
  relativedeltaMinusOneMonth now

/-- Distinct elements of a list in order of first encounter, with a
fuel argument to keep the recursion structural (each step removes every
copy of the head from the tail, so `fuel = length` always suffices). -/
def distinctKeysF {α : Type} [DecidableEq α] : Nat → List α → List α
  | _, [] => []
  | 0, _ :: _ => []
  | n + 1, a :: t => a :: distinctKeysF n (t.filter (fun x => x ≠ a))

/-- Distinct elements of a list in order of first encounter: the key
order of a Python `Counter` (insertion-ordered dict) built by iterating
over the list. -/
def distinctKeys {α : Type} [DecidableEq α] (l : List α) : List α :=
  distinctKeysF l.length l

/-- Model of `collections.Counter(l).items()`: each distinct element in
first-encounter order, paired with its multiplicity in `l`. -/
def counterItems {α : Type} [DecidableEq α] (l : List α) : List (α × Nat) :=
  (distinctKeys l).map (fun k => (k, l.count k))

/-- Stable descending insertion by count: `x` is placed before the first
entry whose count is ≤ `x`'s count (entries inserted earlier with equal
count stay in front of later ones is arranged by `sortEntries`). -/
def insertEntry {α : Type} (x : α × Nat) : List (α × Nat) → List (α × Nat)
  | [] => [x]
  | y :: ys => if y.2 ≤ x.2 then x :: y :: ys else y :: insertEntry x ys

/-- Stable insertion sort by count, descending: the semantics of
`sorted(items, key=itemgetter(1), reverse=True)` (CPython's sort is
stable, and `reverse=True` does not reorder equal keys). -/
def sortEntries {α : Type} : List (α × Nat) → List (α × Nat)
  | [] => []
  | x :: xs => insertEntry x (sortEntries xs)

/-- Model of the `return_histogram` decorator's core:
`Counter(values).most_common()`, i.e. count the occurrences of every
value and rank them by count descending, ties in first-encounter
order. -/
def return_histogram {α : Type} [DecidableEq α] (values : List α) : List (α × Nat) :=
  sortEntries (counterItems values)

/-- Sum of the counts of all entries of a histogram. -/
def histTotal {α : Type} (h : List (α × Nat)) : Nat :=
  (h.map Prod.snd).sum

/-- Sum of the counts that a histogram assigns to the value `v`. -/
def histCount {α : Type} [DecidableEq α] (h : List (α × Nat)) (v : α) : Nat :=
  ((h.filter (fun e => e.1 = v)).map Prod.snd).sum

/-- Model of the filtering part of the decorated list comprehensions
(`... for song in self.liked_songs if since is None or
is_published_after(song, since)` with `since` not `None`): the records
for which `is_published_after` returns `True`, except that any exception
raised by `is_published_after` aborts the whole comprehension. -/
def filterPublishedAfter (records : List VideoRecord) (date : Datetime) :
    Except PyErr (List VideoRecord) :=
  match records with
  | [] => Except.ok []
  | r :: rs =>
    match is_published_after r date with
    | Except.error e => Except.error e
    | Except.ok b =>
      match filterPublishedAfter rs date with
      | Except.error e => Except.error e
      | Except.ok rest => Except.ok (if b then r :: rest else rest)

/-- The §4.4 histogram engine as the source realises it in
`get_categories_histogram` / `get_favourite_channels`: build the list of
extracted values of the records passing the date filter (all records
when `since` is `None`) and rank them with `return_histogram`. -/
def histogram {β : Type} [DecidableEq β] (records : List VideoRecord)
    (extractor : VideoRecord → β) (since : Option Datetime) :
    Except PyErr (List (β × Nat)) :=
  match since with
  | none => Except.ok (return_histogram (records.map extractor))
  | some date =>
    match filterPublishedAfter records date with
    | Except.error e => Except.error e
    | Except.ok kept => Except.ok (return_histogram (kept.map extractor))

/-- Model of `dict.get` on an insertion-ordered association list. -/
def dictGet (m : List (String × String)) (k : String) : Option String :=
  match m with
  | [] => none
  | p :: ps => if p.1 = k then some p.2 else dictGet ps k

/-- Model of `d[k] = v` on an insertion-ordered association list: an
existing key keeps its position and gets the new value, a new key is
appended. -/
def dictInsert (m : List (String × String)) (k v : String) : List (String × String) :=
  match m with
  | [] => [(k, v)]
  | p :: ps => if p.1 = k then (k, v) :: ps else p :: dictInsert ps k v

/-- Extractor used by `get_categories_histogram`:
`self.all_categories_map.get(song.get('categoryId'))` (a `None` key is
simply not found). -/
def categoryNameOf (all_categories_map : List (String × String))
    (song : VideoRecord) : Option String :=
  song.categoryId.bind (fun i => dictGet all_categories_map i)

/-- Model of `Statistics.get_categories_histogram` (decorated with
`return_histogram`); `self.liked_songs` and `self.all_categories_map`
are passed explicitly. -/
def get_categories_histogram (liked_songs : List VideoRecord)
    (all_categories_map : List (String × String)) (since : Option Datetime) :
    Except PyErr (List (Option String × Nat)) :=
  histogram liked_songs (categoryNameOf all_categories_map) since

/-- Model of `Statistics.get_favourite_channels` (decorated with
`return_histogram`). -/
def get_favourite_channels (liked_songs : List VideoRecord)
    (since : Option Datetime) : Except PyErr (List (Option String × Nat)) :=
  histogram liked_songs (fun song => song.channelTitle) since

/-- Relevant keys of one item of a `videoCategories().list` response:
`id` and `snippet.title`, each possibly missing. -/
structure CatEntry where
  id : Option String
  snippet : Option (Option String)
  deriving DecidableEq

/-- Model of `d[k]` (`__getitem__`): raises `KeyError` when absent. -/
def dictGetItem {β : Type} (v : Option β) : Except PyErr β :=
  match v with
  | none => Except.error PyErr.keyError
  | some x => Except.ok x

/-- Body of the assignment `categories_map[category['id']] =
category['snippet']['title']`: Python evaluates the right-hand side
first (`snippet`, then `title`), then the subscript `id`; any of the
three missing keys raises `KeyError`. -/
def extractCategoryPair (c : CatEntry) : Except PyErr (String × String) :=
  match dictGetItem c.snippet with
  | Except.error e => Except.error e
  | Except.ok sn =>
    match dictGetItem sn with
    | Except.error e => Except.error e
    | Except.ok title =>
      match dictGetItem c.id with
      | Except.error e => Except.error e
      | Except.ok i => Except.ok (i, title)

/-- Model of the `for category in response['items']` loop of
`get_categories_map`: each entry is inserted, with `except KeyError`
(and only `KeyError`) logging and skipping the entry. -/
def buildCategoriesMap (m : List (String × String)) :
    List CatEntry → Except PyErr (List (String × String))
  | [] => Except.ok m
  | c :: cs =>
    match extractCategoryPair c with
    | Except.ok p => buildCategoriesMap (dictInsert m p.1 p.2) cs
    | Except.error PyErr.keyError => buildCategoriesMap m cs
    | Except.error e => Except.error e

/-- Model of `','.join(id for id in categories_ids)`: joining raises
`TypeError` at the first non-string (`None`) element. -/
def joinIds : List (Option String) → Except PyErr (List String)
  | [] => Except.ok []
  | none :: _ => Except.error PyErr.typeError
  | some s :: rest =>
    match joinIds rest with
    | Except.error e => Except.error e
    | Except.ok ss => Except.ok (s :: ss)

/-- Model of `Statistics.get_categories_map`: collect the set of
distinct `categoryId` values of the liked songs, comma-join them (the
batched lookup request), call the collaborator, and fold the response
items into the map.  The collaborator `lookupItems` maps the joined id
list to the response's `items`. -/
def get_categories_map (liked_songs : List VideoRecord)
    (lookupItems : List String → List CatEntry) :
    Except PyErr (List (String × String)) :=
  let categories_ids := distinctKeys (liked_songs.map (fun item => item.categoryId))
  match joinIds categories_ids with
  | Except.error e => Except.error e
  | Except.ok ids => buildCategoriesMap [] (lookupItems ids)

/-- One page of a `videos().list(myRating='like', ...)` response: the
raw items and the optional continuation token
(`response.get('nextPageToken')`). -/
structure Page where
  items : List RawItem
  nextPageToken : Option String

/-- Model of `response_to_video_list`: `list(map(shape_item,
response['items']))`; the first item without a `snippet` raises
`KeyError` out of the whole `map`. -/
def response_to_video_list (items : List RawItem) : Except PyErr (List VideoRecord) :=
  match items with
  | [] => Except.ok []
  | i :: is =>
    match shape_item i with
    | Except.error e => Except.error e
    | Except.ok r =>
      match response_to_video_list is with
      | Except.error e => Except.error e
      | Except.ok rs => Except.ok (r :: rs)

/-- Model of the `while page_token is not None` loop of
`get_all_liked_videos`.  The collaborator is modelled as the sequence of
responses it returns: `pages k` is the response to the `k`-th request
(request `k ≥ 1` is issued with the token of response `k - 1`).  `fuel`
bounds the number of loop iterations; `none` means the loop is still
running when the fuel runs out (the Python loop would simply keep
requesting).  On success the result carries the accumulated records and
the total number of requests issued. -/
def fetchLoop (pages : Nat → Page) : Nat → Nat → List VideoRecord → Option String →
    Option (Except PyErr (List VideoRecord × Nat))
  | _, k, acc, none => some (Except.ok (acc, k))
  | 0, _, _, some _ => none
  | fuel + 1, k, acc, some _ =>
    match response_to_video_list (pages k).items with
    | Except.error e => some (Except.error e)
    | Except.ok newResults =>
      fetchLoop pages fuel (k + 1) (acc ++ newResults) (pages k).nextPageToken

/-- Model of `Statistics.get_all_liked_videos`: issue request 0 with no
token, then loop while the previous response carried a continuation
token. -/
def get_all_liked_videos (pages : Nat → Page) (fuel : Nat) :
    Option (Except PyErr (List VideoRecord × Nat)) :=
  match response_to_video_list (pages 0).items with
  | Except.error e => some (Except.error e)
  | Except.ok result => fetchLoop pages fuel 1 result (pages 0).nextPageToken

/-- Pure (exception-free) version of the record filter: the record's
`publishedAt` is present, parses, and is strictly after `date`.  Used to
describe what the filtered comprehension keeps when it does not raise. -/
def publishedAfterB (video : VideoRecord) (date : Datetime) : Bool :=
  match video.publishedAt with
  | none => false
  | some s =>
    match strptimeYT s with
    | none => false
    | some published_at => dtLt date published_at

/-- The id/title pair of a category lookup entry when both fields are
structurally present (the spec's notion of a well-formed entry). -/
def wellFormedPair (c : CatEntry) : Option (String × String) :=
  match c.id, c.snippet with
  | some i, some (some t) => some (i, t)
  | _, _ => none

/-- Modelled from the spec's words (§4.3, C7): keep exactly the
well-formed entries, in order, and insert each id/title pair into the
map; malformed entries are skipped. -/
def specCategoriesMap (items : List CatEntry) : List (String × String) :=
  (items.filterMap wellFormedPair).foldl (fun m p => dictInsert m p.1 p.2) []

/-- The calendar predecessor of a day (used to model
`timedelta(days=n)` subtraction, the arithmetic the spec for C9
contrasts with). -/
def prevDay (t : Datetime) : Datetime :=
  if 2 ≤ t.day then { t with day := t.day - 1 }
  else if t.month = 1 then { t with year := t.year - 1, month := 12, day := 31 }
  else { t with month := t.month - 1, day := daysInMonth t.year (t.month - 1) }

/-- Model of `t - datetime.timedelta(days=n)`. -/
def subDays : Nat → Datetime → Datetime
  | 0, t => t
  | n + 1, t => subDays n (prevDay t)

/-- Modelled from the spec's words (§4.4, C9): the current timestamp
minus exactly one calendar month — previous month, borrowing a year
below January, day-of-month preserved where possible and otherwise
clamped to the last day of the target month, time of day unchanged. -/
def specMinusOneCalendarMonth (t : Datetime) : Datetime :=
  let y := if t.month = 1 then t.year - 1 else t.year
  let m := if t.month = 1 then 12 else t.month - 1
  { t with
    year := y
    month := m
    day := if t.day ≤ daysInMonth y m then t.day else daysInMonth y m }

/-- Concrete two-page collaborator: page 0 carries one item and a
continuation token, page 1 carries one item and no token. -/
def pagesTwo : Nat → Page := fun k =>
  if k = 0 then
    Page.mk [RawItem.mk (some (Snippet.mk none (some "v1") none none none))] (some "T")
  else
    Page.mk [RawItem.mk (some (Snippet.mk none (some "v2") none none none))] none

/-- Shaped records of `pagesTwo`, page by page. -/
def shapedTwo : Nat → List VideoRecord := fun k =>
  if k = 0 then [VideoRecord.mk none (some "v1") none none none]
  else [VideoRecord.mk none (some "v2") none none none]

/-- Concrete three-page collaborator: pages 0 and 1 carry continuation
tokens, page 2 does not. -/
def pagesThree : Nat → Page := fun k =>
  if k = 0 then
    Page.mk [RawItem.mk (some (Snippet.mk none (some "w1") none none none))] (some "T1")
  else if k = 1 then
    Page.mk [RawItem.mk (some (Snippet.mk none (some "w2") none none none))] (some "T2")
  else
    Page.mk [RawItem.mk (some (Snippet.mk none (some "w3") none none none))] none

/-- Shaped records of `pagesThree`, page by page. -/
def shapedThree : Nat → List VideoRecord := fun k =>
  if k = 0 then [VideoRecord.mk none (some "w1") none none none]
  else if k = 1 then [VideoRecord.mk none (some "w2") none none none]
  else [VideoRecord.mk none (some "w3") none none none]

/-! Lemmas about the first-encounter key enumeration. -/

theorem mem_distinctKeysF {α : Type} [DecidableEq α] :
    ∀ (n : Nat) (l : List α), l.length ≤ n → ∀ x : α, (x ∈ distinctKeysF n l ↔ x ∈ l) := by
  intro n
  induction n with
  | zero =>
    intro l hl x
    cases l with
    | nil => simp [distinctKeysF]
    | cons a t => simp at hl
  | succ n ih =>
    intro l hl x
    cases l with
    | nil => simp [distinctKeysF]
    | cons a t =>
      simp only [distinctKeysF, List.mem_cons]
      rw [ih _ (le_trans (t.length_filter_le _) (Nat.le_of_succ_le_succ hl))]
      simp only [List.mem_filter, decide_eq_true_eq]
      tauto

theorem nodup_distinctKeysF {α : Type} [DecidableEq α] :
    ∀ (n : Nat) (l : List α), l.length ≤ n → (distinctKeysF n l).Nodup := by
  intro n
  induction n with
  | zero =>
    intro l hl
    cases l with
    | nil => simp [distinctKeysF]
    | cons a t => simp at hl
  | succ n ih =>
    intro l hl
    cases l with
    | nil => simp [distinctKeysF]
    | cons a t =>
      have hlen : (t.filter (fun x => x ≠ a)).length ≤ n :=
        le_trans (t.length_filter_le _) (Nat.le_of_succ_le_succ hl)
      simp only [distinctKeysF, List.nodup_cons]
      refine ⟨fun hmem => ?_, ih _ hlen⟩
      have := (mem_distinctKeysF n _ hlen a).mp hmem
      simp at this

theorem mem_distinctKeys {α : Type} [DecidableEq α] (l : List α) (x : α) :
    x ∈ distinctKeys l ↔ x ∈ l :=
  mem_distinctKeysF l.length l (le_refl _) x

theorem nodup_distinctKeys {α : Type} [DecidableEq α] (l : List α) :
    (distinctKeys l).Nodup :=
  nodup_distinctKeysF l.length l (le_refl _)

theorem count_add_filter_length {α : Type} [DecidableEq α] (a : α) :
    ∀ t : List α, t.count a + (t.filter (fun x => x ≠ a)).length = t.length := by
  intro t
  induction t with
  | nil => simp
  | cons x t ih =>
    simp only [List.count_cons, List.filter_cons, List.length_cons]
    by_cases hx : x = a
    · have hb : (x == a) = true := by simp [hx]
      have hd : (decide (x ≠ a)) = false := by simp [hx]
      simp only [hb, hd, if_true, Bool.false_eq_true, if_false]
      omega
    · have hb : (x == a) = false := by simp [hx]
      have hd : (decide (x ≠ a)) = true := by simp [hx]
      simp only [hb, hd, if_true, Bool.false_eq_true, if_false, List.length_cons]
      omega

theorem sum_counts_distinctKeysF {α : Type} [DecidableEq α] :
    ∀ (n : Nat) (l : List α), l.length ≤ n →
      ((distinctKeysF n l).map (fun k => l.count k)).sum = l.length := by
  intro n
  induction n with
  | zero =>
    intro l hl
    cases l with
    | nil => simp [distinctKeysF]
    | cons a t => simp at hl
  | succ n ih =>
    intro l hl
    cases l with
    | nil => simp [distinctKeysF]
    | cons a t =>
      have hlen : (t.filter (fun x => x ≠ a)).length ≤ n :=
        le_trans (t.length_filter_le _) (Nat.le_of_succ_le_succ hl)
      simp only [distinctKeysF, List.map_cons, List.sum_cons, List.length_cons]
      have hmapeq :
          (distinctKeysF n (t.filter (fun x => x ≠ a))).map (fun k => (a :: t).count k) =
          (distinctKeysF n (t.filter (fun x => x ≠ a))).map
            (fun k => (t.filter (fun x => x ≠ a)).count k) := by
        apply List.map_congr_left
        intro k hk
        have hkmem : k ∈ t.filter (fun x => x ≠ a) :=
          (mem_distinctKeysF n _ hlen k).mp hk
        have hkne : k ≠ a := by
          have := List.of_mem_filter hkmem
          simpa using this
        rw [List.count_cons_of_ne hkne, List.count_filter (by simp [hkne])]
      rw [hmapeq, ih _ hlen, List.count_cons_self]
      have := count_add_filter_length a t
      omega

theorem sum_counts_distinctKeys {α : Type} [DecidableEq α] (l : List α) :
    ((distinctKeys l).map (fun k => l.count k)).sum = l.length :=
  sum_counts_distinctKeysF l.length l (le_refl _)

/-! Lemmas about the stable descending sort used by `most_common`. -/

theorem insertEntry_perm {α : Type} (x : α × Nat) :
    ∀ l : List (α × Nat), (insertEntry x l).Perm (x :: l) := by
  intro l
  induction l with
  | nil => simp [insertEntry]
  | cons y ys ih =>
    simp only [insertEntry]
    by_cases h : y.2 ≤ x.2
    · simp [h]
    · simp only [h, if_false]
      exact (ih.cons y).trans (List.Perm.swap x y ys)

theorem sortEntries_perm {α : Type} :
    ∀ l : List (α × Nat), (sortEntries l).Perm l := by
  intro l
  induction l with
  | nil => simp [sortEntries]
  | cons x xs ih =>
    exact (insertEntry_perm x (sortEntries xs)).trans (ih.cons x)

theorem insertEntry_sorted {α : Type} (x : α × Nat) :
    ∀ l : List (α × Nat), l.Pairwise (fun a b => b.2 ≤ a.2) →
      (insertEntry x l).Pairwise (fun a b => b.2 ≤ a.2) := by
  intro l
  induction l with
  | nil => simp [insertEntry]
  | cons y ys ih =>
    intro hl
    rw [List.pairwise_cons] at hl
    simp only [insertEntry]
    by_cases h : y.2 ≤ x.2
    · simp only [h, if_true]
      rw [List.pairwise_cons]
      refine ⟨?_, List.pairwise_cons.mpr hl⟩
      intro z hz
      rcases List.mem_cons.mp hz with hz | hz
      · rw [hz]; exact h
      · exact le_trans (hl.1 z hz) h
    · simp only [h, if_false]
      rw [List.pairwise_cons]
      refine ⟨?_, ih hl.2⟩
      intro z hz
      have hz' := (insertEntry_perm x ys).mem_iff.mp hz
      rcases List.mem_cons.mp hz' with hz' | hz'
      · rw [hz']; exact le_of_lt (lt_of_not_le h)
      · exact hl.1 z hz'

theorem sortEntries_sorted {α : Type} :
    ∀ l : List (α × Nat), (sortEntries l).Pairwise (fun a b => b.2 ≤ a.2) := by
  intro l
  induction l with
  | nil => simp [sortEntries]
  | cons x xs ih => exact insertEntry_sorted x (sortEntries xs) ih

theorem insertEntry_filter_count {α : Type} (x : α × Nat) (c : Nat) :
    ∀ l : List (α × Nat), l.Pairwise (fun a b => b.2 ≤ a.2) →
      (insertEntry x l).filter (fun e => e.2 = c) =
        if x.2 = c then x :: l.filter (fun e => e.2 = c)
        else l.filter (fun e => e.2 = c) := by
  intro l
  induction l with
  | nil =>
    intro _
    by_cases hx : x.2 = c <;> simp [insertEntry, List.filter_cons, hx]
  | cons y ys ih =>
    intro hl
    rw [List.pairwise_cons] at hl
    simp only [insertEntry]
    by_cases h : y.2 ≤ x.2
    · simp only [h, if_true]
      by_cases hx : x.2 = c <;> simp [List.filter_cons, hx]
    · have hyx : x.2 < y.2 := lt_of_not_le h
      simp only [h, if_false]
      rw [List.filter_cons, List.filter_cons, ih hl.2]
      by_cases hy : y.2 = c
      · have hx : ¬ x.2 = c := by omega
        simp [hy, hx]
      · simp [hy]

theorem sortEntries_filter_count {α : Type} (c : Nat) :
    ∀ l : List (α × Nat),
      (sortEntries l).filter (fun e => e.2 = c) = l.filter (fun e => e.2 = c) := by
  intro l
  induction l with
  | nil => simp [sortEntries]
  | cons x xs ih =>
    simp only [sortEntries]
    rw [insertEntry_filter_count x c (sortEntries xs) (sortEntries_sorted xs)]
    by_cases hx : x.2 = c <;> simp [List.filter_cons, hx, ih]

/-! Lemmas about `counterItems` and `return_histogram`. -/

theorem counterItems_count_pos {α : Type} [DecidableEq α] (l : List α) :
    ∀ e ∈ counterItems l, 1 ≤ e.2 := by
  intro e he
  rcases List.mem_map.mp he with ⟨k, hk, hke⟩
  have hkl : k ∈ l := (mem_distinctKeys l k).mp hk
  have := List.count_pos_iff.mpr hkl
  rw [← hke]
  simpa using this

theorem histTotal_counterItems {α : Type} [DecidableEq α] (l : List α) :
    histTotal (counterItems l) = l.length := by
  unfold histTotal counterItems
  rw [List.map_map]
  have : (Prod.snd ∘ fun k => (k, l.count k)) = fun k => l.count k := rfl
  rw [this]
  exact sum_counts_distinctKeys l

theorem histTotal_of_perm {α : Type} {h1 h2 : List (α × Nat)} (h : h1.Perm h2) :
    histTotal h1 = histTotal h2 :=
  (h.map Prod.snd).sum_eq

theorem return_histogram_perm {α : Type} [DecidableEq α] (l : List α) :
    (return_histogram l).Perm (counterItems l) :=
  sortEntries_perm (counterItems l)

theorem histTotal_return_histogram {α : Type} [DecidableEq α] (l : List α) :
    histTotal (return_histogram l) = l.length :=
  (histTotal_of_perm (return_histogram_perm l)).trans (histTotal_counterItems l)

theorem filter_key_map_count {α : Type} [DecidableEq α] (l : List α) (v : α) :
    ∀ ks : List α, ks.Nodup →
      ((ks.map (fun k => (k, l.count k))).filter (fun e => e.1 = v)) =
        if v ∈ ks then [(v, l.count v)] else [] := by
  intro ks
  induction ks with
  | nil => simp
  | cons k ks ih =>
    intro hnd
    rw [List.nodup_cons] at hnd
    simp only [List.map_cons, List.filter_cons]
    by_cases hk : k = v
    · subst hk
      have hc : (decide ((k, l.count k).1 = k)) = true := by simp
      simp only [hc, if_true, ih hnd.2, if_neg hnd.1]
      simp [List.mem_cons]
    · have hc : (decide ((k, l.count k).1 = v)) = false := by simp [hk]
      have hne : ¬ v = k := fun h => hk h.symm
      simp only [hc, Bool.false_eq_true, if_false, ih hnd.2]
      simp [List.mem_cons, hne]

theorem histCount_counterItems {α : Type} [DecidableEq α] (l : List α) (v : α) :
    histCount (counterItems l) v = l.count v := by
  unfold histCount counterItems
  rw [filter_key_map_count l v (distinctKeys l) (nodup_distinctKeys l)]
  by_cases hv : v ∈ l
  · rw [if_pos ((mem_distinctKeys l v).mpr hv)]
    simp
  · rw [if_neg (fun h => hv ((mem_distinctKeys l v).mp h))]
    simp [List.count_eq_zero_of_not_mem hv]

theorem histCount_of_perm {α : Type} [DecidableEq α] {h1 h2 : List (α × Nat)}
    (h : h1.Perm h2) (v : α) : histCount h1 v = histCount h2 v :=
  ((h.filter _).map Prod.snd).sum_eq

theorem histCount_return_histogram {α : Type} [DecidableEq α] (l : List α) (v : α) :
    histCount (return_histogram l) v = l.count v :=
  (histCount_of_perm (return_histogram_perm l) v).trans (histCount_counterItems l v)

/-! Lemmas relating positions after filtering to positions in the
original list, and the first-encounter ranking of histogram entries. -/

theorem indexOf_mono_of_filter {α : Type} [DecidableEq α] (p : α → Bool) :
    ∀ (t : List α) (b c : α), b ∈ t.filter p → c ∈ t.filter p →
      (t.filter p).indexOf b < (t.filter p).indexOf c →
      t.indexOf b < t.indexOf c := by
  intro t
  induction t with
  | nil => intro b c hb _ _; simp at hb
  | cons x t ih =>
    intro b c hb hc hlt
    by_cases hpx : p x
    · rw [List.filter_cons_of_pos hpx] at hb hc hlt
      by_cases hbx : b = x
      · subst hbx
        have hcb : c ≠ b := by
          intro hcb
          subst hcb
          simp at hlt
        rw [List.indexOf_cons_self, List.indexOf_cons_ne t (fun h => hcb h.symm)]
        exact Nat.succ_pos _
      · have hcx : c ≠ x := by
          intro hcx
          subst hcx
          rw [List.indexOf_cons_self] at hlt
          exact absurd hlt (Nat.not_lt_zero _)
        have hxb : x ≠ b := fun h => hbx h.symm
        have hxc : x ≠ c := fun h => hcx h.symm
        rw [List.indexOf_cons_ne _ hxb, List.indexOf_cons_ne _ hxc] at hlt
        have hbf : b ∈ t.filter p := by
          rcases List.mem_cons.mp hb with h | h
          · exact absurd h hbx
          · exact h
        have hcf : c ∈ t.filter p := by
          rcases List.mem_cons.mp hc with h | h
          · exact absurd h hcx
          · exact h
        have := ih b c hbf hcf (Nat.lt_of_succ_lt_succ hlt)
        rw [List.indexOf_cons_ne t hxb, List.indexOf_cons_ne t hxc]
        exact Nat.succ_lt_succ this
    · rw [List.filter_cons_of_neg hpx] at hb hc hlt
      have hbx : x ≠ b := by
        intro h
        subst h
        exact hpx (List.of_mem_filter hb)
      have hcx : x ≠ c := by
        intro h
        subst h
        exact hpx (List.of_mem_filter hc)
      rw [List.indexOf_cons_ne t hbx, List.indexOf_cons_ne t hcx]
      exact Nat.succ_lt_succ (ih b c hb hc hlt)

theorem distinctKeysF_pairwise_indexOf {α : Type} [DecidableEq α] :
    ∀ (n : Nat) (l : List α), l.length ≤ n →
      (distinctKeysF n l).Pairwise (fun a b => l.indexOf a < l.indexOf b) := by
  intro n
  induction n with
  | zero =>
    intro l hl
    cases l with
    | nil => simp [distinctKeysF]
    | cons a t => simp at hl
  | succ n ih =>
    intro l hl
    cases l with
    | nil => simp [distinctKeysF]
    | cons a t =>
      have hlen : (t.filter (fun x => x ≠ a)).length ≤ n :=
        le_trans (t.length_filter_le _) (Nat.le_of_succ_le_succ hl)
      simp only [distinctKeysF]
      rw [List.pairwise_cons]
      constructor
      · intro b hb
        have hbf : b ∈ t.filter (fun x => x ≠ a) := (mem_distinctKeysF n _ hlen b).mp hb
        have hbne : b ≠ a := by
          have := List.of_mem_filter hbf
          simpa using this
        rw [List.indexOf_cons_self, List.indexOf_cons_ne t (fun h => hbne h.symm)]
        exact Nat.succ_pos _
      · refine (ih _ hlen).imp_of_mem ?_
        intro b c hbmem hcmem hbc
        have hbf : b ∈ t.filter (fun x => x ≠ a) := (mem_distinctKeysF n _ hlen b).mp hbmem
        have hcf : c ∈ t.filter (fun x => x ≠ a) := (mem_distinctKeysF n _ hlen c).mp hcmem
        have hbne : b ≠ a := by
          have := List.of_mem_filter hbf
          simpa using this
        have hcne : c ≠ a := by
          have := List.of_mem_filter hcf
          simpa using this
        have ht : t.indexOf b < t.indexOf c :=
          indexOf_mono_of_filter _ t b c hbf hcf hbc
        rw [List.indexOf_cons_ne t (fun h => hbne h.symm),
          List.indexOf_cons_ne t (fun h => hcne h.symm)]
        exact Nat.succ_lt_succ ht

theorem counterItems_pairwise_indexOf {α : Type} [DecidableEq α] (l : List α) :
    (counterItems l).Pairwise (fun e1 e2 => l.indexOf e1.1 < l.indexOf e2.1) := by
  unfold counterItems
  rw [List.pairwise_map]
  exact distinctKeysF_pairwise_indexOf l.length l (le_refl _)

theorem return_histogram_stable {α : Type} [DecidableEq α] (l : List α) :
    (return_histogram l).Pairwise
      (fun e1 e2 => e1.2 = e2.2 → l.indexOf e1.1 < l.indexOf e2.1) := by
  rw [List.pairwise_iff_forall_sublist]
  intro e1 e2 hsub heq
  have h1 : [e1, e2].filter (fun e => e.2 = e1.2) = [e1, e2] := by
    have hc1 : (decide (e1.2 = e1.2)) = true := by simp
    have hc2 : (decide (e2.2 = e1.2)) = true := by simp [heq.symm]
    simp [List.filter_cons, hc1, hc2]
  have hsubf := hsub.filter (fun e => e.2 = e1.2)
  rw [h1] at hsubf
  have hflt : (return_histogram l).filter (fun e => e.2 = e1.2) =
      (counterItems l).filter (fun e => e.2 = e1.2) :=
    sortEntries_filter_count e1.2 (counterItems l)
  rw [hflt] at hsubf
  have hsub2 : [e1, e2].Sublist (counterItems l) :=
    hsubf.trans (List.filter_sublist _)
  exact List.pairwise_iff_forall_sublist.mp (counterItems_pairwise_indexOf l) hsub2

/-! Lemmas about the time filter and the two histogram code paths. -/

theorem is_published_after_of_present (r : VideoRecord) (d : Datetime)
    (h : r.publishedAt ≠ none) :
    is_published_after r d = Except.ok (publishedAfterB r d) := by
  unfold is_published_after publishedAfterB
  cases hp : r.publishedAt with
  | none => exact absurd hp h
  | some s => cases hst : strptimeYT s <;> simp [hst]

theorem filterPublishedAfter_of_present (d : Datetime) :
    ∀ R : List VideoRecord, (∀ r ∈ R, r.publishedAt ≠ none) →
      filterPublishedAfter R d =
        Except.ok (R.filter (fun r => publishedAfterB r d)) := by
  intro R
  induction R with
  | nil => intro _; rfl
  | cons r rs ih =>
    intro hpres
    have hr : r.publishedAt ≠ none := hpres r (List.mem_cons_self r rs)
    have hrs : ∀ x ∈ rs, x.publishedAt ≠ none :=
      fun x hx => hpres x (List.mem_cons_of_mem r hx)
    simp only [filterPublishedAfter, is_published_after_of_present r d hr, ih hrs,
      List.filter_cons]

theorem histogram_some_of_present {β : Type} [DecidableEq β] (R : List VideoRecord)
    (extractor : VideoRecord → β) (d : Datetime)
    (hpres : ∀ r ∈ R, r.publishedAt ≠ none) :
    histogram R extractor (some d) =
      Except.ok (return_histogram
        ((R.filter (fun r => publishedAfterB r d)).map extractor)) := by
  simp only [histogram, filterPublishedAfter_of_present d R hpres]

/-! Lemmas about the category resolver. -/

theorem extractCategoryPair_wellFormed (c : CatEntry) :
    (∀ p, extractCategoryPair c = Except.ok p ↔ wellFormedPair c = some p) ∧
    (wellFormedPair c = none → extractCategoryPair c = Except.error PyErr.keyError) := by
  rcases c with ⟨cid, csn⟩
  cases cid <;> rcases csn with _ | ⟨_ | t⟩ <;>
    simp [extractCategoryPair, wellFormedPair, dictGetItem]

theorem buildCategoriesMap_ok :
    ∀ (items : List CatEntry) (m : List (String × String)),
      buildCategoriesMap m items = Except.ok
        ((items.filterMap wellFormedPair).foldl (fun acc p => dictInsert acc p.1 p.2) m) := by
  intro items
  induction items with
  | nil => intro m; rfl
  | cons c cs ih =>
    intro m
    cases hwf : wellFormedPair c with
    | none =>
      have herr := (extractCategoryPair_wellFormed c).2 hwf
      simp only [buildCategoriesMap, herr, List.filterMap_cons, hwf]
      exact ih m
    | some p =>
      have hok : extractCategoryPair c = Except.ok p :=
        ((extractCategoryPair_wellFormed c).1 p).mpr hwf
      simp only [buildCategoriesMap, hok, List.filterMap_cons, hwf, List.foldl_cons]
      exact ih (dictInsert m p.1 p.2)

theorem joinIds_ok :
    ∀ ids : List (Option String), (∀ x ∈ ids, x ≠ none) →
      ∃ ss, joinIds ids = Except.ok ss := by
  intro ids
  induction ids with
  | nil => intro _; exact ⟨[], rfl⟩
  | cons x xs ih =>
    intro hall
    cases x with
    | none => exact absurd rfl (hall none (List.mem_cons_self _ _))
    | some s =>
      obtain ⟨ss, hss⟩ := ih (fun y hy => hall y (List.mem_cons_of_mem _ hy))
      exact ⟨s :: ss, by simp [joinIds, hss]⟩

theorem joinIds_error :
    ∀ ids : List (Option String), none ∈ ids →
      joinIds ids = Except.error PyErr.typeError := by
  intro ids
  induction ids with
  | nil => intro h; simp at h
  | cons x xs ih =>
    intro hmem
    cases x with
    | none => rfl
    | some s =>
      have hx : none ∈ xs := by
        rcases List.mem_cons.mp hmem with h | h
        · exact absurd h (by simp)
        · exact h
      simp [joinIds, ih hx]

/-! Lemmas about the pagination loop. -/

theorem fetchLoop_spec (pages : Nat → Page) (shaped : Nat → List VideoRecord)
    (hshape : ∀ k, response_to_video_list (pages k).items = Except.ok (shaped k)) :
    ∀ (n fuel prev : Nat) (acc : List VideoRecord), n ≤ fuel →
      (∀ j, prev ≤ j → j < prev + n → ((pages j).nextPageToken).isSome) →
      (pages (prev + n)).nextPageToken = none →
      fetchLoop pages fuel (prev + 1) acc ((pages prev).nextPageToken) =
        some (Except.ok (acc ++ ((List.range' (prev + 1) n).map shaped).flatten,
          prev + 1 + n)) := by
  intro n
  induction n with
  | zero =>
    intro fuel prev acc _ _ hnone
    rw [Nat.add_zero] at hnone
    rw [hnone]
    simp [fetchLoop]
  | succ m ih =>
    intro fuel prev acc hfuel htok hnone
    cases fuel with
    | zero => omega
    | succ f =>
      have hsome : ((pages prev).nextPageToken).isSome :=
        htok prev (le_refl prev) (by omega)
      obtain ⟨tok, htokeq⟩ := Option.isSome_iff_exists.mp hsome
      rw [htokeq]
      simp only [fetchLoop, hshape (prev + 1)]
      have hih := ih f (prev + 1) (acc ++ shaped (prev + 1))
        (Nat.le_of_succ_le_succ hfuel)
        (fun j hj1 hj2 => htok j (by omega) (by omega))
        (by
          have : prev + 1 + m = prev + (m + 1) := by omega
          rw [this]
          exact hnone)
      rw [hih]
      rw [List.range'_succ]
      simp only [List.map_cons, List.flatten_cons]
      rw [List.append_assoc]
      have : prev + 1 + 1 + m = prev + 1 + (m + 1) := by omega
      rw [this]

theorem get_all_liked_videos_spec (pages : Nat → Page)
    (shaped : Nat → List VideoRecord) (N fuel : Nat)
    (hshape : ∀ k, response_to_video_list (pages k).items = Except.ok (shaped k))
    (hfuel : N ≤ fuel)
    (htok : ∀ j, j < N → ((pages j).nextPageToken).isSome)
    (hnone : (pages N).nextPageToken = none) :
    get_all_liked_videos pages fuel =
      some (Except.ok (((List.range (N + 1)).map shaped).flatten, N + 1)) := by
  unfold get_all_liked_videos
  simp only [hshape 0]
  have h := fetchLoop_spec pages shaped hshape N fuel 0 (shaped 0) hfuel
    (fun j _ hj => htok j (by omega)) (by simpa using hnone)
  simp only [Nat.zero_add] at h
  rw [h]
  rw [List.range_eq_range', List.range'_succ]
  simp [List.flatten_cons, Nat.add_comm]

/-! Claim theorems. -/

/-- C2: for every record sequence `R` and every extractor, the histogram
computed with `since = None` is produced without any exception, its
total count (sum of the counts of all entries) equals `len(R)`, and the
count it assigns to every value `v` — including the absent value, which
is a value of `β = Option String` like any other — equals the number of
records extracting to `v`, so no record is dropped from the unfiltered
histogram. -/
theorem claim_C2 {β : Type} [DecidableEq β] (R : List VideoRecord)
    (extractor : VideoRecord → β) :
    ∃ h, histogram R extractor none = Except.ok h ∧
      histTotal h = R.length ∧
      ∀ v : β, histCount h v = (R.map extractor).count v := by
  refine ⟨return_histogram (R.map extractor), rfl, ?_,
    fun v => histCount_return_histogram _ v⟩
  rw [histTotal_return_histogram, List.length_map]

/-- C5: for every record sequence and extractor the resulting histogram
(`return_histogram` applied to the sequence of extracted values, which
is how both decorated methods produce every histogram they return) is a
sequence of (value, count) entries with every count ≥ 1, sorted by count
descending, whose entries are exactly the distinct extracted values with
their multiplicities (`counterItems`, which lists them in first-encounter
order), and any two entries with equal counts appear in the order of the
first encounter (`List.indexOf`) of their values in the extracted
sequence: stable count-based ranking. -/
theorem claim_C5 {β : Type} [DecidableEq β] (R : List VideoRecord)
    (extractor : VideoRecord → β) :
    (∀ e ∈ return_histogram (R.map extractor), 1 ≤ e.2) ∧
    (return_histogram (R.map extractor)).Pairwise (fun e1 e2 => e2.2 ≤ e1.2) ∧
    (return_histogram (R.map extractor)).Perm (counterItems (R.map extractor)) ∧
    (return_histogram (R.map extractor)).Pairwise (fun e1 e2 => e1.2 = e2.2 →
      (R.map extractor).indexOf e1.1 < (R.map extractor).indexOf e2.1) := by
  refine ⟨?_, sortEntries_sorted _, return_histogram_perm _, return_histogram_stable _⟩
  intro e he
  exact counterItems_count_pos _ e ((return_histogram_perm _).mem_iff.mp he)

/-- C8: for every raw video item carrying a `snippet` sub-mapping,
`shape_item` returns (without raising) the record whose five fields
`publishedAt`, `title`, `channelTitle`, `tags`, `categoryId` are exactly
the snippet's optional values — a key missing from the snippet yields
the absent value (in particular a missing `tags` yields `none`, not an
empty list).  `shape_item` is a Lean function, hence pure. -/
theorem claim_C8 (item : RawItem) (sn : Snippet) (h : item.snippet = some sn) :
    shape_item item = Except.ok
      { publishedAt := sn.publishedAt, title := sn.title,
        channelTitle := sn.channelTitle, tags := sn.tags,
        categoryId := sn.categoryId } := by
  simp [shape_item, h]

/-- Witness for C8: a concrete item whose snippet lacks `tags`; the
shaped record's `tags` is absent. -/
theorem claim_C8_witness :
    (RawItem.mk (some (Snippet.mk (some "2020-01-01T00:00:00Z") (some "song")
        (some "chan") none (some "10")))).snippet =
      some (Snippet.mk (some "2020-01-01T00:00:00Z") (some "song")
        (some "chan") none (some "10")) ∧
    shape_item (RawItem.mk (some (Snippet.mk (some "2020-01-01T00:00:00Z")
        (some "song") (some "chan") none (some "10")))) =
      Except.ok (VideoRecord.mk (some "2020-01-01T00:00:00Z") (some "song")
        (some "chan") none (some "10")) :=
  ⟨rfl, claim_C8 _ _ rfl⟩

/-- C9: for every (valid) current timestamp, `last_month` equals the
current timestamp minus exactly one calendar month — day-of-month
preserved where possible, otherwise clamped, per the spec-side
definition `specMinusOneCalendarMonth` — and it is not the subtraction
of 30 days: some current timestamp yields a different result. -/
theorem claim_C9 :
    (∀ now : Datetime, validDatetime now = true →
      last_month now = specMinusOneCalendarMonth now) ∧
    (∃ now : Datetime, validDatetime now = true ∧
      last_month now ≠ subDays 30 now) := by
  constructor
  · intro now _
    unfold last_month relativedeltaMinusOneMonth specMinusOneCalendarMonth
    by_cases h1 : now.month = 1 <;> simp [h1, Nat.min_def]
  · exact ⟨⟨2021, 3, 15, 0, 0, 0⟩, by decide, by decide⟩

/-- Witness for C9: March 31st 2024 is valid, and one calendar month
before it is February 29th 2024 (day clamped in a leap year). -/
theorem claim_C9_witness :
    validDatetime ⟨2024, 3, 31, 12, 0, 0⟩ = true ∧
    last_month ⟨2024, 3, 31, 12, 0, 0⟩ =
      specMinusOneCalendarMonth ⟨2024, 3, 31, 12, 0, 0⟩ :=
  ⟨by decide, claim_C9.1 ⟨2024, 3, 31, 12, 0, 0⟩ (by decide)⟩

/-- Counterexample to C1 as stated: a record with ABSENT `publishedAt`
under an active `since` filter is not excluded non-fatally — the
`TypeError` raised by `strptime(None, ...)` is not caught by the
`except ValueError` handler and escapes the whole filtered histogram
computation. -/
theorem claim_C1_counterexample :
    get_categories_histogram
      [VideoRecord.mk none (some "songA") (some "chanA") none (some "10")]
      [("10", "Music")] (some ⟨2021, 1, 1, 0, 0, 0⟩) =
      Except.error PyErr.typeError := by
  decide

/-- C1 amended: for records whose `publishedAt` is PRESENT, a record
with an unparseable timestamp is excluded from the time-filtered
histogram non-fatally (the `ValueError` is caught, `is_published_after`
returns `False`, no exception escapes), while under no `since` filter no
date check occurs and every record — parseable or not — contributes.
(A record with an absent `publishedAt` instead aborts the filtered
computation with an uncaught `TypeError`; see the counterexample.) -/
theorem claim_C1_amended {β : Type} [DecidableEq β] (R : List VideoRecord)
    (extractor : VideoRecord → β) (d : Datetime)
    (hpresent : ∀ r ∈ R, r.publishedAt ≠ none) :
    histogram R extractor (some d) =
      Except.ok (return_histogram
        ((R.filter (fun r => publishedAfterB r d)).map extractor)) ∧
    histogram R extractor none =
      Except.ok (return_histogram (R.map extractor)) :=
  ⟨histogram_some_of_present R extractor d hpresent, rfl⟩

/-- Witness for C1: a single record with a present but unparseable
`publishedAt`; filtered and unfiltered histograms both complete without
an exception, the record kept only by the unfiltered one. -/
theorem claim_C1_witness :
    (∀ r ∈ [(VideoRecord.mk (some "corrupted") none (some "B") none none)],
      r.publishedAt ≠ none) ∧
    (histogram [VideoRecord.mk (some "corrupted") none (some "B") none none]
        (fun r => r.channelTitle) (some ⟨2021, 3, 1, 0, 0, 0⟩) =
      Except.ok (return_histogram
        (([VideoRecord.mk (some "corrupted") none (some "B") none none].filter
          (fun r => publishedAfterB r ⟨2021, 3, 1, 0, 0, 0⟩)).map
          (fun r => r.channelTitle))) ∧
    histogram [VideoRecord.mk (some "corrupted") none (some "B") none none]
        (fun r => r.channelTitle) none =
      Except.ok (return_histogram
        ([VideoRecord.mk (some "corrupted") none (some "B") none none].map
          (fun r => r.channelTitle)))) :=
  ⟨by decide, claim_C1_amended _ _ _ (by decide)⟩

/-- Counterexample to C3 as stated: with a non-None `since` and a record
whose `publishedAt` is absent, the filtered histogram does not have a
total count at all — the computation raises `TypeError` — whereas the
claim predicts a total equal to the number of records parsing after
`since` (here 0). -/
theorem claim_C3_counterexample :
    histogram [VideoRecord.mk none (some "songB") (some "chanB") none none]
      (fun r => r.channelTitle) (some ⟨2020, 6, 1, 0, 0, 0⟩) =
      Except.error PyErr.typeError := by
  decide

/-- C3 amended: for records whose `publishedAt` is PRESENT, the filtered
histogram completes, its total count is at most the unfiltered total,
and it equals the number of records whose `publishedAt` parses as a
timestamp strictly greater than `since`.  (With an absent `publishedAt`
the filtered computation raises instead; see the counterexample.) -/
theorem claim_C3_amended {β : Type} [DecidableEq β] (R : List VideoRecord)
    (extractor : VideoRecord → β) (d : Datetime)
    (hpresent : ∀ r ∈ R, r.publishedAt ≠ none) :
    ∃ hf hu, histogram R extractor (some d) = Except.ok hf ∧
      histogram R extractor none = Except.ok hu ∧
      histTotal hf ≤ histTotal hu ∧
      histTotal hf = R.countP (fun r => publishedAfterB r d) := by
  refine ⟨return_histogram ((R.filter (fun r => publishedAfterB r d)).map extractor),
    return_histogram (R.map extractor),
    histogram_some_of_present R extractor d hpresent, rfl, ?_, ?_⟩
  · rw [histTotal_return_histogram, histTotal_return_histogram,
      List.length_map, List.length_map]
    exact List.length_filter_le _ _
  · rw [histTotal_return_histogram, List.length_map, List.countP_eq_length_filter]

/-- Witness for C3: two parseable records, one published after the
cutoff and one before. -/
theorem claim_C3_witness :
    (∀ r ∈ [VideoRecord.mk (some "2021-03-15T00:00:00Z") none (some "A") none none,
        VideoRecord.mk (some "2021-01-05T00:00:00Z") none (some "B") none none],
      r.publishedAt ≠ none) ∧
    (∃ hf hu,
      histogram [VideoRecord.mk (some "2021-03-15T00:00:00Z") none (some "A") none none,
          VideoRecord.mk (some "2021-01-05T00:00:00Z") none (some "B") none none]
        (fun r => r.channelTitle) (some ⟨2021, 2, 1, 0, 0, 0⟩) = Except.ok hf ∧
      histogram [VideoRecord.mk (some "2021-03-15T00:00:00Z") none (some "A") none none,
          VideoRecord.mk (some "2021-01-05T00:00:00Z") none (some "B") none none]
        (fun r => r.channelTitle) none = Except.ok hu ∧
      histTotal hf ≤ histTotal hu ∧
      histTotal hf =
        List.countP (fun r => publishedAfterB r ⟨2021, 2, 1, 0, 0, 0⟩)
          [VideoRecord.mk (some "2021-03-15T00:00:00Z") none (some "A") none none,
            VideoRecord.mk (some "2021-01-05T00:00:00Z") none (some "B") none none]) :=
  ⟨by decide, claim_C3_amended _ _ _ (by decide)⟩

/-- Counterexample to C4 as stated: a record with an absent `categoryId`
is a data-shape anomaly, yet it aborts `get_categories_map` with a
runtime `TypeError` (raised by `','.join` over the id set, before any
request is issued) — the absent marker is neither passed through nor
filtered before the request. -/
theorem claim_C4_counterexample :
    get_categories_map [VideoRecord.mk none none none none none]
      (fun _ => []) = Except.error PyErr.typeError := by
  decide

/-- C4 amended: when every liked record carries a present `categoryId`,
the category resolver completes for every collaborator response (the
malformed entries among the response items are skipped non-fatally);
but as soon as some record's `categoryId` is absent, the resolver raises
`TypeError` while joining the ids, aborting the run before the request
is issued. -/
theorem claim_C4_amended (liked_songs : List VideoRecord)
    (lookupItems : List String → List CatEntry) :
    ((∀ r ∈ liked_songs, r.categoryId ≠ none) →
      ∃ m, get_categories_map liked_songs lookupItems = Except.ok m) ∧
    ((∃ r ∈ liked_songs, r.categoryId = none) →
      get_categories_map liked_songs lookupItems =
        Except.error PyErr.typeError) := by
  constructor
  · intro hall
    have hids : ∀ x ∈ distinctKeys (liked_songs.map (fun item => item.categoryId)),
        x ≠ none := by
      intro x hx
      rcases List.mem_map.mp ((mem_distinctKeys _ x).mp hx) with ⟨r, hr, hrx⟩
      rw [← hrx]
      exact hall r hr
    obtain ⟨ss, hss⟩ := joinIds_ok _ hids
    simp only [get_categories_map, hss]
    exact ⟨_, buildCategoriesMap_ok _ _⟩
  · rintro ⟨r, hr, hrnone⟩
    have hmem : (none : Option String) ∈
        liked_songs.map (fun item => item.categoryId) :=
      List.mem_map.mpr ⟨r, hr, hrnone⟩
    have herr := joinIds_error _ ((mem_distinctKeys _ _).mpr hmem)
    simp only [get_categories_map, herr]

/-- Witness for C4: one record with a present `categoryId` resolves to a
map, and adding a record with an absent `categoryId` turns the whole
resolution into a `TypeError`. -/
theorem claim_C4_witness :
    (∃ m, get_categories_map [VideoRecord.mk none none none none (some "10")]
      (fun _ => [CatEntry.mk (some "10") (some (some "Music"))]) = Except.ok m) ∧
    get_categories_map
      [VideoRecord.mk none none none none (some "10"),
        VideoRecord.mk none none none none none]
      (fun _ => [CatEntry.mk (some "10") (some (some "Music"))]) =
      Except.error PyErr.typeError :=
  ⟨(claim_C4_amended _ _).1 (by decide),
    (claim_C4_amended _ _).2 ⟨VideoRecord.mk none none none none none,
      by decide, rfl⟩⟩

/-- C7: for every category-lookup response, the map-building loop never
raises — it returns exactly the map obtained by inserting the id/title
pair of every entry that has both fields and skipping every entry
structurally missing either (the spec-side `specCategoriesMap`); on the
spec's concrete example (one well-formed entry id "10" / title "Music"
and one entry missing its title) the resulting map is exactly
⦃"10" ↦ "Music"⦄, and a later lookup of the skipped id "20" yields
absent, not a fault. -/
theorem claim_C7 :
    (∀ items : List CatEntry,
      buildCategoriesMap [] items = Except.ok (specCategoriesMap items)) ∧
    buildCategoriesMap []
      [CatEntry.mk (some "10") (some (some "Music")),
        CatEntry.mk (some "20") (some none)] =
      Except.ok [("10", "Music")] ∧
    dictGet [("10", "Music")] "20" = none := by
  refine ⟨fun items => buildCategoriesMap_ok items [], by decide, by decide⟩

/-- C6: for every sequence of collaborator pages whose first token-free
response is page `N` (every earlier page carries a continuation token),
and whose items all shape successfully, `get_all_liked_videos` returns
the concatenation of the shaped items of pages 0 … N in strict page
order, having issued exactly one request per page. -/
theorem claim_C6 (pages : Nat → Page) (shaped : Nat → List VideoRecord)
    (N fuel : Nat)
    (hshape : ∀ k, response_to_video_list (pages k).items = Except.ok (shaped k))
    (hfuel : N ≤ fuel)
    (htok : ∀ j, j < N → ((pages j).nextPageToken).isSome)
    (hnone : (pages N).nextPageToken = none) :
    get_all_liked_videos pages fuel =
      some (Except.ok (((List.range (N + 1)).map shaped).flatten, N + 1)) :=
  get_all_liked_videos_spec pages shaped N fuel hshape hfuel htok hnone

/-- Witness for C6: two mocked pages P1 (with token "T") then P2 (no
token); the result is exactly P1's shaped item followed by P2's shaped
item. -/
theorem claim_C6_witness :
    get_all_liked_videos pagesTwo 1 =
      some (Except.ok ([VideoRecord.mk none (some "v1") none none none,
        VideoRecord.mk none (some "v2") none none none], 2)) := by
  have h := claim_C6 pagesTwo shapedTwo 1 1
    (by intro k; cases k <;> rfl) (le_refl 1)
    (by
      intro j hj
      have hj0 : j = 0 := by omega
      subst hj0
      rfl)
    rfl
  rw [h]
  rfl

/-- C10: for every sequence of collaborator responses whose first
token-free response is page `N` (a finite page stream) with all items
shaping successfully, the pagination loop terminates — it does not run
out of any fuel bound of at least `N` — after exactly one request per
page (`N + 1` requests in total), stopping at the first absent token. -/
theorem claim_C10 (pages : Nat → Page) (shaped : Nat → List VideoRecord)
    (N fuel : Nat)
    (hshape : ∀ k, response_to_video_list (pages k).items = Except.ok (shaped k))
    (hfuel : N ≤ fuel)
    (htok : ∀ j, j < N → ((pages j).nextPageToken).isSome)
    (hnone : (pages N).nextPageToken = none) :
    ∃ result, get_all_liked_videos pages fuel =
      some (Except.ok (result, N + 1)) :=
  ⟨_, get_all_liked_videos_spec pages shaped N fuel hshape hfuel htok hnone⟩

/-- Witness for C10: three mocked pages, the third without a token; the
loop terminates with exactly three requests. -/
theorem claim_C10_witness :
    ∃ result, get_all_liked_videos pagesThree 5 =
      some (Except.ok (result, 3)) :=
  claim_C10 pagesThree shapedThree 2 5
    (by intro k; cases k with
      | zero => rfl
      | succ n => cases n <;> rfl)
    (by omega)
    (by
      intro j hj
      match j, hj with
      | 0, _ => rfl
      | 1, _ => rfl)
    rfl

end YTStats
